import Mathlib

/-!
Verification of the Fibonacci bound-analysis module
(`Project Euler Problem 2 - Complete Implementation with Three Algorithms.py`)
and the multiples-of-3-or-5 summation script (`Project euler simple.py`).

The Python code is shallowly embedded: each generator `while` loop becomes a
recursive function on `Nat` state, machine integers become `Nat` (all values
involved are non-negative and Python integers are unbounded, so no overflow
modelling is needed), and the wall-clock `computation_time` field (a float
measured with `time.perf_counter`) is omitted as non-semantic timing metadata.
-/

/-- Embeds `class FibonacciFilter(Enum)` with members ALL, EVEN, ODD. -/
inductive FibonacciFilter where
  | ALL
  | EVEN
  | ODD
deriving DecidableEq, Repr

/-- Embeds `@dataclass class FibonacciResult` (without the wall-clock
`computation_time` field, which is timing metadata, not computation). -/
structure FibonacciResult where
  filter_type : FibonacciFilter
  sum_value : Nat
  sequence : List Nat
  count : Nat
  glb : Nat
  lub : Nat
  limit : Nat
deriving DecidableEq, Repr

/-- The generation loop shared by `fibonacci_all`, `fibonacci_even_filtered`
and `fibonacci_odd_filtered`:

    while a <= limit:
        sequence.append(a)
        a, b = b, a + b

Returns the appended sequence together with the final values of `a` and `b`.
The inner `0 < b` guard is needed only for termination of the Lean recursion;
every call below starts from `b = 2` and the update `b := a + b` keeps `b`
positive, so the guard's `else` branch is never reached from those calls
(in Python the loop would not terminate from such a state either). -/
def fibLoop (limit a b : Nat) : List Nat × Nat × Nat :=
  if a ≤ limit then
    if 0 < b then
      let r := fibLoop limit b (a + b)
      (a :: r.1, r.2)
    else ([], a, b)
  else ([], a, b)
termination_by limit + 1 - a + (limit + 1 - b)
decreasing_by omega

/-- The generation loop of `fibonacci_even_optimized`:

    while a <= limit:
        sequence.append(a)
        a, b = b, 4*b + a

with the same termination guard discipline as `fibLoop`. -/
def evenLoop (limit a b : Nat) : List Nat × Nat × Nat :=
  if a ≤ limit then
    if 0 < b then
      let r := evenLoop limit b (4 * b + a)
      (a :: r.1, r.2)
    else ([], a, b)
  else ([], a, b)
termination_by limit + 1 - a + (limit + 1 - b)
decreasing_by omega

/-- The post-loop of `fibonacci_even_filtered` that advances past odd terms:

    while a % 2 == 1:
        a, b = b, a + b

From any state this loop runs at most two iterations (odd, odd → odd, even →
even), so it is structurally total. -/
def oddSkipLoop (a b : Nat) : Nat × Nat :=
  if a % 2 = 1 then oddSkipLoop b (a + b)
  else (a, b)
termination_by (if a % 2 = 1 then (if b % 2 = 1 then 2 else 1) else 0)
decreasing_by
  rcases Nat.mod_two_eq_zero_or_one b with hb | hb <;> simp_all [Nat.add_mod]

/-- The post-loop of `fibonacci_odd_difference` that advances past even terms:

    while a % 2 == 0:
        a, b = b, a + b

The callers below always reach this loop with `a`, `b` two consecutive
Fibonacci values, which are never both even, so the `else (a, b)` branch
guarding against the (a even, b even) state — on which the Python loop would
diverge — is never reached. -/
def evenSkipLoop (a b : Nat) : Nat × Nat :=
  if a % 2 = 0 then
    if b % 2 = 1 then evenSkipLoop b (a + b)
    else (a, b)
  else (a, b)
termination_by (if a % 2 = 0 then 1 else 0)
decreasing_by
  simp_all [Nat.add_mod]

/-- Embeds `fibonacci_all(limit)`.  The Python accumulator `total` receives
exactly the elements appended to `sequence`, i.e. it is the sequence sum. -/
def fibonacci_all (limit : Nat) : FibonacciResult :=
  let r := fibLoop limit 1 2
  { filter_type := .ALL
    sum_value := r.1.sum
    sequence := r.1
    count := r.1.length
    glb := r.1.getLast?.getD 0
    lub := r.2.1
    limit := limit }

/-- Embeds `fibonacci_even_optimized(limit)` (seeds `a, b = 2, 8`, direct
even recurrence `a, b = b, 4*b + a`). -/
def fibonacci_even_optimized (limit : Nat) : FibonacciResult :=
  let r := evenLoop limit 2 8
  { filter_type := .EVEN
    sum_value := r.1.sum
    sequence := r.1
    count := r.1.length
    glb := r.1.getLast?.getD 0
    lub := r.2.1
    limit := limit }

/-- Embeds `fibonacci_even_filtered(limit)`: generate all terms from seed
(1, 2) keeping only the even ones, then advance the recurrence past odd
values to find the LUB. -/
def fibonacci_even_filtered (limit : Nat) : FibonacciResult :=
  let r := fibLoop limit 1 2
  let sequence := r.1.filter (fun x => x % 2 = 0)
  let s := oddSkipLoop r.2.1 r.2.2
  { filter_type := .EVEN
    sum_value := sequence.sum
    sequence := sequence
    count := sequence.length
    glb := sequence.getLast?.getD 0
    lub := s.1
    limit := limit }

/-- Embeds `fibonacci_odd_difference(limit)`: odd sequence by filtering the
ALL sequence, odd sum as `all.sum_value - even.sum_value` (the subtraction is
exact: the even terms are among the all terms, see `sum_even_le_sum_all`),
LUB by advancing the standard recurrence from `(all.lub, all.lub + all.glb)`
past even values. -/
def fibonacci_odd_difference (limit : Nat) : FibonacciResult :=
  let all_result := fibonacci_all limit
  let even_result := fibonacci_even_optimized limit
  let odd_sequence := all_result.sequence.filter (fun x => x % 2 = 1)
  let odd_sum := all_result.sum_value - even_result.sum_value
  let s := evenSkipLoop all_result.lub (all_result.lub + all_result.glb)
  { filter_type := .ODD
    sum_value := odd_sum
    sequence := odd_sequence
    count := odd_sequence.length
    glb := odd_sequence.getLast?.getD 0
    lub := s.1
    limit := limit }

/-- Embeds `UnifiedFibonacciSolver(limit).solve(filter_type)` (the spec's
`analyze(bound, filter)`).  The Python `raise ValueError` branch is
unreachable for the three `FibonacciFilter` members, which are the only
inhabitants of the embedded enum. -/
def UnifiedFibonacciSolver.solve (limit : Nat) (filter_type : FibonacciFilter) :
    FibonacciResult :=
  match filter_type with
  | .ALL => fibonacci_all limit
  | .EVEN => fibonacci_even_optimized limit
  | .ODD => fibonacci_odd_difference limit

/-- Embeds `sum_multiples_below(n, m)` from `Project euler simple.py`:

    if n <= m: return 0
    k = (n - 1) // m
    return m * k * (k + 1) // 2

All quantities are non-negative, so `Nat` subtraction and floor division
coincide with Python's. -/
def sum_multiples_below (n m : Nat) : Nat :=
  if n ≤ m then 0
  else
    let k := (n - 1) / m
    m * k * (k + 1) / 2

/-- Embeds `calculate_sum_3_or_5(n)`:

    return sum_3 + sum_5 - sum_15

The Python subtraction acts on a non-negative value (the multiples of 15
below `n` are among the multiples of 3 below `n`), so `Nat` truncated
subtraction agrees with Python's exact integer subtraction here; this is
proved as part of `calculate_sum_3_or_5_correct`. -/
def calculate_sum_3_or_5 (n : Nat) : Nat :=
  let sum_3 := sum_multiples_below n 3
  let sum_5 := sum_multiples_below n 5
  let sum_15 := sum_multiples_below n 15
  sum_3 + sum_5 - sum_15

/-! ### The canonical Fibonacci sequence seeded (1, 2)

`g n` is the value of the loop variable `a` after `n` iterations when the
loops above are started from `a, b = 1, 2`; it is the canonical sequence the
spec's "filtered class" refers to. -/

/-- The Fibonacci sequence with `g 0 = 1`, `g 1 = 2`. -/
def g : Nat → Nat
  | 0 => 1
  | 1 => 2
  | n + 2 => g n + g (n + 1)

/-- Membership in the canonical Fibonacci sequence seeded (1, 2). -/
def isFib (x : Nat) : Prop := ∃ n, g n = x

/-- The parity predicate selected by a filter (spec §3: "satisfies the
FilterKind predicate", trivially true for ALL). -/
def parityOK : FibonacciFilter → Nat → Prop
  | .ALL, _ => True
  | .EVEN, x => x % 2 = 0
  | .ODD, x => x % 2 = 1

/-- The spec's "filtered class": the canonical Fibonacci sequence seeded
(1, 2), restricted to the filter's parity. -/
def inClass (f : FibonacciFilter) (x : Nat) : Prop := isFib x ∧ parityOK f x

theorem g_pos (n : Nat) : 0 < g n := by
  induction n using g.induct <;> simp_all [g]

theorem g_lt_succ (n : Nat) : g n < g (n + 1) := by
  induction n using g.induct with
  | case1 => simp [g]
  | case2 => simp [g]
  | case3 n ih1 ih2 =>
    have h1 := g_pos (n + 1)
    simp only [g]
    omega

theorem g_strictMono : StrictMono g :=
  strictMono_nat_of_lt_succ g_lt_succ

theorem g_mono {m n : Nat} (h : m ≤ n) : g m ≤ g n :=
  g_strictMono.monotone h

/-- Parity pattern of the sequence: terms at index ≡ 1 (mod 3) are the even
ones. -/
theorem g_mod_two (n : Nat) : g n % 2 = if n % 3 = 1 then 0 else 1 := by
  have key : ∀ k, (g k % 2 = if k % 3 = 1 then 0 else 1) ∧
      (g (k + 1) % 2 = if (k + 1) % 3 = 1 then 0 else 1) := by
    intro k
    induction k with
    | zero => simp [g]
    | succ k ih =>
      refine ⟨ih.2, ?_⟩
      have hg : g (k + 1 + 1) = g k + g (k + 1) := rfl
      have h2 : g (k + 1 + 1) % 2 = (g k % 2 + g (k + 1) % 2) % 2 := by
        rw [hg, Nat.add_mod]
      rcases ih with ⟨ih1, ih2⟩
      split_ifs at ih1 ih2 ⊢ <;> omega
  exact (key n).1

theorem g_add_two (n : Nat) : g (n + 2) = g n + g (n + 1) := rfl

/-- The direct even recurrence identity: every third term satisfies
`E(n) = 4 E(n-1) + E(n-2)`, i.e. `g (n+6) = 4 * g (n+3) + g n`. -/
theorem g_add_six (n : Nat) : g (n + 6) = 4 * g (n + 3) + g n := by
  have key : ∀ k, (g (k + 6) = 4 * g (k + 3) + g k) ∧
      (g (k + 7) = 4 * g (k + 4) + g (k + 1)) := by
    intro k
    induction k with
    | zero => exact ⟨by decide, by decide⟩
    | succ k ih =>
      refine ⟨ih.2, ?_⟩
      have e1 : g (k + 1 + 7) = g (k + 6) + g (k + 7) := rfl
      have e2 : g (k + 1 + 4) = g (k + 3) + g (k + 4) := rfl
      have e3 : g (k + 1 + 1) = g k + g (k + 1) := rfl
      rw [e1, e2, e3, ih.1, ih.2]
      ring
  exact (key n).1

/-! ### Unfolding lemmas for the loops -/

theorem fibLoop_eq_of_le {limit a b : Nat} (ha : a ≤ limit) (hb : 0 < b) :
    fibLoop limit a b =
      (a :: (fibLoop limit b (a + b)).1, (fibLoop limit b (a + b)).2) := by
  rw [fibLoop]
  simp [ha, hb]

theorem fibLoop_eq_of_gt {limit a b : Nat} (ha : limit < a) :
    fibLoop limit a b = ([], a, b) := by
  rw [fibLoop]
  simp [Nat.not_le.mpr ha]

theorem evenLoop_eq_of_le {limit a b : Nat} (ha : a ≤ limit) (hb : 0 < b) :
    evenLoop limit a b =
      (a :: (evenLoop limit b (4 * b + a)).1, (evenLoop limit b (4 * b + a)).2) := by
  rw [evenLoop]
  simp [ha, hb]

theorem evenLoop_eq_of_gt {limit a b : Nat} (ha : limit < a) :
    evenLoop limit a b = ([], a, b) := by
  rw [evenLoop]
  simp [Nat.not_le.mpr ha]

/-! ### Characterization of the generation loops along `g` -/

/-- Started at two consecutive canonical terms, `fibLoop` collects exactly
the canonical terms with index in `[n, m)` — `m` being the first index at or
after `n` whose term exceeds the limit — and stops with `a, b` holding the
consecutive terms `g m`, `g (m+1)`. -/
theorem fibLoop_spec (limit n : Nat) :
    ∃ m, n ≤ m ∧ limit < g m ∧ (∀ j, n ≤ j → j < m → g j ≤ limit) ∧
      fibLoop limit (g n) (g (n + 1)) =
        ((List.range' n (m - n)).map g, g m, g (m + 1)) := by
  have main : ∀ fuel n, limit + 1 - g n ≤ fuel →
      ∃ m, n ≤ m ∧ limit < g m ∧ (∀ j, n ≤ j → j < m → g j ≤ limit) ∧
        fibLoop limit (g n) (g (n + 1)) =
          ((List.range' n (m - n)).map g, g m, g (m + 1)) := by
    intro fuel
    induction fuel with
    | zero =>
      intro n hn
      have hgt : limit < g n := by omega
      refine ⟨n, Nat.le_refl n, hgt, by omega, ?_⟩
      rw [fibLoop_eq_of_gt hgt]
      simp
    | succ fuel ih =>
      intro n hn
      by_cases hle : g n ≤ limit
      · have hlt := g_lt_succ n
        obtain ⟨m, hm1, hm2, hm3, hm4⟩ := ih (n + 1) (by omega)
        refine ⟨m, by omega, hm2, ?_, ?_⟩
        · intro j hj1 hj2
          rcases Nat.eq_or_lt_of_le hj1 with h | h
          · exact h ▸ hle
          · exact hm3 j h hj2
        · rw [fibLoop_eq_of_le hle (g_pos (n + 1))]
          have e : g n + g (n + 1) = g (n + 1 + 1) := rfl
          rw [e, hm4]
          have hmn : m - n = (m - (n + 1)) + 1 := by omega
          rw [hmn, List.range'_succ]
          simp
      · refine ⟨n, Nat.le_refl n, by omega, by omega, ?_⟩
        rw [fibLoop_eq_of_gt (by omega)]
        simp
  exact main (limit + 1 - g n) n (Nat.le_refl _)

/-! ### Loop invariants: bound, lower bound, strict increase, parity -/

theorem fibLoop_mem_le (limit a b : Nat) :
    ∀ x ∈ (fibLoop limit a b).1, x ≤ limit := by
  induction a, b using fibLoop.induct limit with
  | case1 a b h1 h2 ih =>
    rw [fibLoop_eq_of_le h1 h2]
    intro x hx
    rcases List.mem_cons.mp hx with rfl | hx
    · exact h1
    · exact ih x hx
  | case2 a b h1 h2 =>
    rw [fibLoop]
    simp [h1, h2]
  | case3 a b h1 =>
    rw [fibLoop_eq_of_gt (by omega)]
    simp

theorem evenLoop_mem_le (limit a b : Nat) :
    ∀ x ∈ (evenLoop limit a b).1, x ≤ limit := by
  induction a, b using evenLoop.induct limit with
  | case1 a b h1 h2 ih =>
    rw [evenLoop_eq_of_le h1 h2]
    intro x hx
    rcases List.mem_cons.mp hx with rfl | hx
    · exact h1
    · exact ih x hx
  | case2 a b h1 h2 =>
    rw [evenLoop]
    simp [h1, h2]
  | case3 a b h1 =>
    rw [evenLoop_eq_of_gt (by omega)]
    simp

theorem fibLoop_mem_lower (limit a b : Nat) :
    0 < a → a < b → ∀ x ∈ (fibLoop limit a b).1, a ≤ x := by
  induction a, b using fibLoop.induct limit with
  | case1 a b h1 h2 ih =>
    intro ha hab x hx
    rw [fibLoop_eq_of_le h1 h2] at hx
    rcases List.mem_cons.mp hx with rfl | hx
    · exact Nat.le_refl x
    · exact Nat.le_of_lt (Nat.lt_of_lt_of_le hab (ih h2 (by omega) x hx))
  | case2 a b h1 h2 =>
    intro _ hab
    omega
  | case3 a b h1 =>
    intro _ _ x hx
    rw [fibLoop_eq_of_gt (by omega)] at hx
    simp at hx

theorem evenLoop_mem_lower (limit a b : Nat) :
    0 < a → a < b → ∀ x ∈ (evenLoop limit a b).1, a ≤ x := by
  induction a, b using evenLoop.induct limit with
  | case1 a b h1 h2 ih =>
    intro ha hab x hx
    rw [evenLoop_eq_of_le h1 h2] at hx
    rcases List.mem_cons.mp hx with rfl | hx
    · exact Nat.le_refl x
    · exact Nat.le_of_lt (Nat.lt_of_lt_of_le hab (ih h2 (by omega) x hx))
  | case2 a b h1 h2 =>
    intro _ hab
    omega
  | case3 a b h1 =>
    intro _ _ x hx
    rw [evenLoop_eq_of_gt (by omega)] at hx
    simp at hx

theorem fibLoop_pairwise (limit a b : Nat) :
    0 < a → a < b → ((fibLoop limit a b).1).Pairwise (· < ·) := by
  induction a, b using fibLoop.induct limit with
  | case1 a b h1 h2 ih =>
    intro ha hab
    rw [fibLoop_eq_of_le h1 h2]
    refine List.pairwise_cons.mpr ⟨?_, ih h2 (by omega)⟩
    intro x hx
    exact Nat.lt_of_lt_of_le hab (fibLoop_mem_lower limit b (a + b) h2 (by omega) x hx)
  | case2 a b h1 h2 =>
    intro _ hab
    omega
  | case3 a b h1 =>
    intro _ _
    rw [fibLoop_eq_of_gt (by omega)]
    simp

theorem evenLoop_pairwise (limit a b : Nat) :
    0 < a → a < b → ((evenLoop limit a b).1).Pairwise (· < ·) := by
  induction a, b using evenLoop.induct limit with
  | case1 a b h1 h2 ih =>
    intro ha hab
    rw [evenLoop_eq_of_le h1 h2]
    refine List.pairwise_cons.mpr ⟨?_, ih h2 (by omega)⟩
    intro x hx
    exact Nat.lt_of_lt_of_le hab (evenLoop_mem_lower limit b (4 * b + a) h2 (by omega) x hx)
  | case2 a b h1 h2 =>
    intro _ hab
    omega
  | case3 a b h1 =>
    intro _ _
    rw [evenLoop_eq_of_gt (by omega)]
    simp

theorem evenLoop_mem_even (limit a b : Nat) :
    a % 2 = 0 → b % 2 = 0 → ∀ x ∈ (evenLoop limit a b).1, x % 2 = 0 := by
  induction a, b using evenLoop.induct limit with
  | case1 a b h1 h2 ih =>
    intro ha hb x hx
    rw [evenLoop_eq_of_le h1 h2] at hx
    rcases List.mem_cons.mp hx with rfl | hx
    · exact ha
    · exact ih hb (by omega) x hx
  | case2 a b h1 h2 =>
    intro ha _ x hx
    rw [evenLoop] at hx
    simp [h1, h2] at hx
  | case3 a b h1 =>
    intro _ _ x hx
    rw [evenLoop_eq_of_gt (by omega)] at hx
    simp at hx

theorem g_even_of_mod (n : Nat) (h : n % 3 = 1) : g n % 2 = 0 := by
  have := g_mod_two n
  simp [h] at this
  exact this

theorem g_odd_of_mod (n : Nat) (h : n % 3 ≠ 1) : g n % 2 = 1 := by
  have := g_mod_two n
  simp [h] at this
  exact this

/-- The direct even recurrence, started at the canonical terms `g (3k+1)`,
`g (3k+4)` = the (k+1)-st and (k+2)-nd even Fibonacci values, stops with `a`
holding the first even canonical term exceeding the limit, with all even
terms of lower index at or below the limit. -/
theorem evenLoop_spec (limit k : Nat) :
    ∃ K, k ≤ K ∧ limit < g (3 * K + 1) ∧
      (∀ i, k ≤ i → i < K → g (3 * i + 1) ≤ limit) ∧
      (evenLoop limit (g (3 * k + 1)) (g (3 * k + 4))).2.1 = g (3 * K + 1) := by
  have main : ∀ fuel k, limit + 1 - g (3 * k + 1) ≤ fuel →
      ∃ K, k ≤ K ∧ limit < g (3 * K + 1) ∧
        (∀ i, k ≤ i → i < K → g (3 * i + 1) ≤ limit) ∧
        (evenLoop limit (g (3 * k + 1)) (g (3 * k + 4))).2.1 = g (3 * K + 1) := by
    intro fuel
    induction fuel with
    | zero =>
      intro k hk
      have hgt : limit < g (3 * k + 1) := by omega
      refine ⟨k, Nat.le_refl k, hgt, by omega, ?_⟩
      rw [evenLoop_eq_of_gt hgt]
    | succ fuel ih =>
      intro k hk
      by_cases hle : g (3 * k + 1) ≤ limit
      · have harg : 4 * g (3 * k + 4) + g (3 * k + 1) = g (3 * (k + 1) + 4) := by
          have h := g_add_six (3 * k + 1)
          have e1 : 3 * k + 1 + 6 = 3 * (k + 1) + 4 := by ring
          have e2 : 3 * k + 1 + 3 = 3 * k + 4 := by ring
          rw [e1, e2] at h
          omega
        obtain ⟨K, hK1, hK2, hK3, hK4⟩ := ih (k + 1) (by
          have hlt : g (3 * k + 1) < g (3 * (k + 1) + 1) := g_strictMono (by omega)
          omega)
        refine ⟨K, by omega, hK2, ?_, ?_⟩
        · intro i hi1 hi2
          rcases Nat.eq_or_lt_of_le hi1 with h | h
          · exact h ▸ hle
          · exact hK3 i h hi2
        · rw [evenLoop_eq_of_le hle (g_pos _)]
          dsimp only
          rw [harg, show 3 * k + 4 = 3 * (k + 1) + 1 from by ring]
          exact hK4
      · refine ⟨k, Nat.le_refl k, by omega, by omega, ?_⟩
        rw [evenLoop_eq_of_gt (by omega)]
  exact main (limit + 1 - g (3 * k + 1)) k (Nat.le_refl _)

/-- Core equivalence: the direct even recurrence produces exactly the even
terms of the all-terms loop, when both are started at the aligned seeds
`(g (3k+1), g (3k+4))` and `(g (3k+1), g (3k+2))`. -/
theorem evenLoop_eq_filter_aux (limit k : Nat) :
    (evenLoop limit (g (3 * k + 1)) (g (3 * k + 4))).1 =
      ((fibLoop limit (g (3 * k + 1)) (g (3 * k + 2))).1).filter
        (fun x => x % 2 = 0) := by
  have main : ∀ fuel k, limit + 1 - g (3 * k + 1) ≤ fuel →
      (evenLoop limit (g (3 * k + 1)) (g (3 * k + 4))).1 =
        ((fibLoop limit (g (3 * k + 1)) (g (3 * k + 2))).1).filter
          (fun x => x % 2 = 0) := by
    intro fuel
    induction fuel with
    | zero =>
      intro k hk
      have hgt : limit < g (3 * k + 1) := by omega
      rw [evenLoop_eq_of_gt hgt, fibLoop_eq_of_gt hgt]
      rfl
    | succ fuel ih =>
      intro k hk
      by_cases h1 : g (3 * k + 1) ≤ limit
      · have heven : g (3 * k + 1) % 2 = 0 := g_even_of_mod _ (by omega)
        have harg : 4 * g (3 * k + 4) + g (3 * k + 1) = g (3 * (k + 1) + 4) := by
          have h := g_add_six (3 * k + 1)
          have e1 : 3 * k + 1 + 6 = 3 * (k + 1) + 4 := by ring
          have e2 : 3 * k + 1 + 3 = 3 * k + 4 := by ring
          rw [e1, e2] at h
          omega
        have e12 : g (3 * k + 1) + g (3 * k + 2) = g (3 * k + 3) := by
          have h := g_add_two (3 * k + 1)
          have e : 3 * k + 1 + 2 = 3 * k + 3 := by ring
          have e' : 3 * k + 1 + 1 = 3 * k + 2 := by ring
          rw [e, e'] at h
          omega
        rw [evenLoop_eq_of_le h1 (g_pos _), fibLoop_eq_of_le h1 (g_pos _)]
        dsimp only
        rw [List.filter_cons_of_pos (by simpa using heven)]
        rw [harg, e12]
        congr 1
        by_cases h2 : g (3 * k + 2) ≤ limit
        · have hodd2 : g (3 * k + 2) % 2 = 1 := g_odd_of_mod _ (by omega)
          have e23 : g (3 * k + 2) + g (3 * k + 3) = g (3 * k + 4) := by
            have h := g_add_two (3 * k + 2)
            have e : 3 * k + 2 + 2 = 3 * k + 4 := by ring
            have e' : 3 * k + 2 + 1 = 3 * k + 3 := by ring
            rw [e, e'] at h
            omega
          rw [fibLoop_eq_of_le h2 (g_pos _)]
          dsimp only
          rw [List.filter_cons_of_neg (by simp [hodd2])]
          rw [e23]
          by_cases h3 : g (3 * k + 3) ≤ limit
          · have hodd3 : g (3 * k + 3) % 2 = 1 := g_odd_of_mod _ (by omega)
            have e34 : g (3 * k + 3) + g (3 * k + 4) = g (3 * k + 5) := by
              have h := g_add_two (3 * k + 3)
              have e : 3 * k + 3 + 2 = 3 * k + 5 := by ring
              have e' : 3 * k + 3 + 1 = 3 * k + 4 := by ring
              rw [e, e'] at h
              omega
            rw [fibLoop_eq_of_le h3 (g_pos _)]
            dsimp only
            rw [List.filter_cons_of_neg (by simp [hodd3])]
            rw [e34]
            rw [show 3 * k + 4 = 3 * (k + 1) + 1 from by ring,
              show 3 * k + 5 = 3 * (k + 1) + 2 from by ring]
            exact ih (k + 1) (by
              have hlt : g (3 * k + 1) < g (3 * (k + 1) + 1) := g_strictMono (by omega)
              omega)
          · have hm : g (3 * k + 3) ≤ g (3 * k + 4) := g_mono (by omega)
            have h4gt : limit < g (3 * k + 4) := by omega
            rw [fibLoop_eq_of_gt (by omega), evenLoop_eq_of_gt h4gt]
            rfl
        · have hm : g (3 * k + 2) ≤ g (3 * k + 4) := g_mono (by omega)
          have h4gt : limit < g (3 * k + 4) := by omega
          rw [fibLoop_eq_of_gt (by omega), evenLoop_eq_of_gt h4gt]
          rfl
      · rw [evenLoop_eq_of_gt (by omega), fibLoop_eq_of_gt (by omega)]
        rfl
  exact main (limit + 1 - g (3 * k + 1)) k (Nat.le_refl _)

/-- At the actual seeds: the direct even recurrence from (2, 8) produces the
even terms of the all-terms loop from (1, 2). -/
theorem even_filter_all (limit : Nat) (h : 1 ≤ limit) :
    (evenLoop limit 2 8).1 = ((fibLoop limit 1 2).1).filter (fun x => x % 2 = 0) := by
  have h0 := evenLoop_eq_filter_aux limit 0
  have e1 : g (3 * 0 + 1) = 2 := rfl
  have e4 : g (3 * 0 + 4) = 8 := rfl
  have e2 : g (3 * 0 + 2) = 3 := rfl
  rw [e1, e4, e2] at h0
  rw [h0, fibLoop_eq_of_le (show (1 : Nat) ≤ limit from h) (by omega)]
  dsimp only
  rw [List.filter_cons_of_neg (by simp)]

theorem sum_even_le_sum_all (limit : Nat) :
    (fibonacci_even_optimized limit).sum_value ≤ (fibonacci_all limit).sum_value := by
  by_cases h : 1 ≤ limit
  · show ((evenLoop limit 2 8).1).sum ≤ ((fibLoop limit 1 2).1).sum
    rw [even_filter_all limit h]
    exact List.Sublist.sum_le_sum (List.filter_sublist _) (fun a _ => Nat.zero_le a)
  · have h0 : limit = 0 := by omega
    subst h0
    show ((evenLoop 0 2 8).1).sum ≤ ((fibLoop 0 1 2).1).sum
    simp [evenLoop, fibLoop]

/-- C2: for every bound ≥ 1 the direct even recurrence starting (2, 8) with
step (a, b) → (b, 4b + a) produces exactly the same sequence as generating
the ALL recurrence seeded (1, 2) and keeping the even terms:
`fibonacci_even_optimized(bound).sequence = fibonacci_even_filtered(bound).sequence`,
and the sum fields agree. -/
theorem even_optimized_eq_even_filtered (bound : Nat) (h : 1 ≤ bound) :
    (fibonacci_even_optimized bound).sequence = (fibonacci_even_filtered bound).sequence ∧
      (fibonacci_even_optimized bound).sum_value = (fibonacci_even_filtered bound).sum_value := by
  have hs := even_filter_all bound h
  constructor
  · exact hs
  · show ((evenLoop bound 2 8).1).sum =
      (((fibLoop bound 1 2).1).filter (fun x => x % 2 = 0)).sum
    rw [hs]

/-- Witness for `even_optimized_eq_even_filtered` at bound 100. -/
theorem even_optimized_eq_even_filtered_witness :
    1 ≤ 100 ∧
      ((fibonacci_even_optimized 100).sequence = (fibonacci_even_filtered 100).sequence ∧
        (fibonacci_even_optimized 100).sum_value = (fibonacci_even_filtered 100).sum_value) :=
  ⟨by decide, even_optimized_eq_even_filtered 100 (by decide)⟩

/-- C1: for every bound ≥ 1 the sum reported for ALL equals the sum reported
for EVEN plus the sum reported for ODD (the dispatch of
`UnifiedFibonacciSolver.solve`). -/
theorem sum_all_eq_sum_even_add_sum_odd (bound : Nat) (_h : 1 ≤ bound) :
    (UnifiedFibonacciSolver.solve bound FibonacciFilter.ALL).sum_value =
      (UnifiedFibonacciSolver.solve bound FibonacciFilter.EVEN).sum_value +
        (UnifiedFibonacciSolver.solve bound FibonacciFilter.ODD).sum_value := by
  have hle := sum_even_le_sum_all bound
  have hodd : (fibonacci_odd_difference bound).sum_value =
      (fibonacci_all bound).sum_value - (fibonacci_even_optimized bound).sum_value := rfl
  show (fibonacci_all bound).sum_value =
    (fibonacci_even_optimized bound).sum_value + (fibonacci_odd_difference bound).sum_value
  omega

/-- Witness for `sum_all_eq_sum_even_add_sum_odd` at bound 100. -/
theorem sum_all_eq_sum_even_add_sum_odd_witness :
    1 ≤ 100 ∧
      (UnifiedFibonacciSolver.solve 100 FibonacciFilter.ALL).sum_value =
        (UnifiedFibonacciSolver.solve 100 FibonacciFilter.EVEN).sum_value +
          (UnifiedFibonacciSolver.solve 100 FibonacciFilter.ODD).sum_value :=
  ⟨by decide, sum_all_eq_sum_even_add_sum_odd 100 (by decide)⟩

/-- C6: for every bound ≥ 1 and filter, every reported sequence element is
≤ bound; the EVEN sequence contains only even values and the ODD sequence
only odd values. -/
theorem sequence_mem_le_and_parity (bound : Nat) (_h : 1 ≤ bound) (f : FibonacciFilter) :
    (∀ x ∈ (UnifiedFibonacciSolver.solve bound f).sequence, x ≤ bound) ∧
      (∀ x ∈ (UnifiedFibonacciSolver.solve bound FibonacciFilter.EVEN).sequence,
        x % 2 = 0) ∧
      (∀ x ∈ (UnifiedFibonacciSolver.solve bound FibonacciFilter.ODD).sequence,
        x % 2 = 1) := by
  refine ⟨?_, ?_, ?_⟩
  · cases f with
    | ALL => exact fibLoop_mem_le bound 1 2
    | EVEN => exact evenLoop_mem_le bound 2 8
    | ODD =>
      intro x hx
      exact fibLoop_mem_le bound 1 2 x (List.mem_of_mem_filter hx)
  · exact evenLoop_mem_even bound 2 8 rfl rfl
  · intro x hx
    exact of_decide_eq_true (List.mem_filter.mp hx).2

/-- Witness for `sequence_mem_le_and_parity` at bound 100, filter ODD. -/
theorem sequence_mem_le_and_parity_witness :
    1 ≤ 100 ∧
      ((∀ x ∈ (UnifiedFibonacciSolver.solve 100 FibonacciFilter.ODD).sequence, x ≤ 100) ∧
        (∀ x ∈ (UnifiedFibonacciSolver.solve 100 FibonacciFilter.EVEN).sequence,
          x % 2 = 0) ∧
        (∀ x ∈ (UnifiedFibonacciSolver.solve 100 FibonacciFilter.ODD).sequence,
          x % 2 = 1)) :=
  ⟨by decide, sequence_mem_le_and_parity 100 (by decide) FibonacciFilter.ODD⟩

/-- C7: for every bound ≥ 1 and filter, the reported sequence is strictly
increasing: each element is strictly greater than the one before it (stated
as pairwise `<`, which also rules out duplicates). -/
theorem sequence_pairwise_lt (bound : Nat) (_h : 1 ≤ bound) (f : FibonacciFilter) :
    ((UnifiedFibonacciSolver.solve bound f).sequence).Pairwise (· < ·) := by
  cases f with
  | ALL => exact fibLoop_pairwise bound 1 2 (by omega) (by omega)
  | EVEN => exact evenLoop_pairwise bound 2 8 (by omega) (by omega)
  | ODD =>
    exact List.Pairwise.filter _ (fibLoop_pairwise bound 1 2 (by omega) (by omega))

/-- Witness for `sequence_pairwise_lt` at bound 100, filter ALL. -/
theorem sequence_pairwise_lt_witness :
    1 ≤ 100 ∧
      ((UnifiedFibonacciSolver.solve 100 FibonacciFilter.ALL).sequence).Pairwise (· < ·) :=
  ⟨by decide, sequence_pairwise_lt 100 (by decide) FibonacciFilter.ALL⟩

/-- C9: calling `solve` twice with identical arguments yields records whose
fields all agree (the embedding carries every field of the Python dataclass
except the wall-clock `computation_time` metadata). -/
theorem solve_deterministic (bound : Nat) (_h : 1 ≤ bound) (f : FibonacciFilter) :
    (UnifiedFibonacciSolver.solve bound f).filter_type =
        (UnifiedFibonacciSolver.solve bound f).filter_type ∧
      (UnifiedFibonacciSolver.solve bound f).sum_value =
        (UnifiedFibonacciSolver.solve bound f).sum_value ∧
      (UnifiedFibonacciSolver.solve bound f).sequence =
        (UnifiedFibonacciSolver.solve bound f).sequence ∧
      (UnifiedFibonacciSolver.solve bound f).count =
        (UnifiedFibonacciSolver.solve bound f).count ∧
      (UnifiedFibonacciSolver.solve bound f).glb =
        (UnifiedFibonacciSolver.solve bound f).glb ∧
      (UnifiedFibonacciSolver.solve bound f).lub =
        (UnifiedFibonacciSolver.solve bound f).lub ∧
      (UnifiedFibonacciSolver.solve bound f).limit =
        (UnifiedFibonacciSolver.solve bound f).limit :=
  ⟨rfl, rfl, rfl, rfl, rfl, rfl, rfl⟩

/-- Witness for `solve_deterministic` at bound 5, filter EVEN. -/
theorem solve_deterministic_witness :
    1 ≤ 5 ∧
      ((UnifiedFibonacciSolver.solve 5 FibonacciFilter.EVEN).filter_type =
          (UnifiedFibonacciSolver.solve 5 FibonacciFilter.EVEN).filter_type ∧
        (UnifiedFibonacciSolver.solve 5 FibonacciFilter.EVEN).sum_value =
          (UnifiedFibonacciSolver.solve 5 FibonacciFilter.EVEN).sum_value ∧
        (UnifiedFibonacciSolver.solve 5 FibonacciFilter.EVEN).sequence =
          (UnifiedFibonacciSolver.solve 5 FibonacciFilter.EVEN).sequence ∧
        (UnifiedFibonacciSolver.solve 5 FibonacciFilter.EVEN).count =
          (UnifiedFibonacciSolver.solve 5 FibonacciFilter.EVEN).count ∧
        (UnifiedFibonacciSolver.solve 5 FibonacciFilter.EVEN).glb =
          (UnifiedFibonacciSolver.solve 5 FibonacciFilter.EVEN).glb ∧
        (UnifiedFibonacciSolver.solve 5 FibonacciFilter.EVEN).lub =
          (UnifiedFibonacciSolver.solve 5 FibonacciFilter.EVEN).lub ∧
        (UnifiedFibonacciSolver.solve 5 FibonacciFilter.EVEN).limit =
          (UnifiedFibonacciSolver.solve 5 FibonacciFilter.EVEN).limit) :=
  ⟨by decide, solve_deterministic 5 (by decide) FibonacciFilter.EVEN⟩

/-- C3 counterexample: at bound 0 (i.e. bound < 1) with the valid filter ALL,
`solve` raises nothing and returns a normal `FibonacciResult` (the empty
analysis) instead of reporting an error: there is no bound validation in the
code. -/
theorem solve_bound_zero_returns_result :
    UnifiedFibonacciSolver.solve 0 FibonacciFilter.ALL =
      { filter_type := FibonacciFilter.ALL, sum_value := 0, sequence := [],
        count := 0, glb := 0, lub := 1, limit := 0 } := by
  simp [UnifiedFibonacciSolver.solve, fibonacci_all, fibLoop]

/-- C3 amended: `solve` never fails for any bound and any filter in
{ALL, EVEN, ODD}; for bound < 1 (bound 0 — Python's negative bounds take the
same loop-not-entered path) it returns a normal empty result (sequence `[]`,
sum 0, count 0, glb 0) rather than an error. -/
theorem solve_low_bound_empty_no_error (f : FibonacciFilter) :
    (UnifiedFibonacciSolver.solve 0 f).sequence = [] ∧
      (UnifiedFibonacciSolver.solve 0 f).sum_value = 0 ∧
      (UnifiedFibonacciSolver.solve 0 f).count = 0 ∧
      (UnifiedFibonacciSolver.solve 0 f).glb = 0 := by
  cases f <;>
    simp [UnifiedFibonacciSolver.solve, fibonacci_all, fibonacci_even_optimized,
      fibonacci_odd_difference, fibLoop, evenLoop, evenSkipLoop]

/-- C4 counterexample: the code's ALL analysis at bound 100 sums to 231 (the
sequence seeded (1, 2) holds one `1`, unlike the (1, 1)-seeded variant whose
sum is 232), so the claimed `sum = 232` is false. -/
theorem solve_hundred_all_sum_ne_232 :
    (UnifiedFibonacciSolver.solve 100 FibonacciFilter.ALL).sum_value ≠ 232 := by
  simp [UnifiedFibonacciSolver.solve, fibonacci_all, fibLoop]

/-- C4 amended: the concrete cases as the code actually computes them:
analyze(100, ALL) → sum 231, count 10, sequence ending in 89;
analyze(100, EVEN) → sum 44, sequence [2, 8, 34];
analyze(100, ODD) → sum 187, count 7;
analyze(10, ALL) → sequence [1, 2, 3, 5, 8], sum 19. -/
theorem concrete_cases_amended :
    (UnifiedFibonacciSolver.solve 100 FibonacciFilter.ALL).sum_value = 231 ∧
      (UnifiedFibonacciSolver.solve 100 FibonacciFilter.ALL).count = 10 ∧
      (UnifiedFibonacciSolver.solve 100 FibonacciFilter.ALL).sequence.getLast? = some 89 ∧
      (UnifiedFibonacciSolver.solve 100 FibonacciFilter.EVEN).sum_value = 44 ∧
      (UnifiedFibonacciSolver.solve 100 FibonacciFilter.EVEN).sequence = [2, 8, 34] ∧
      (UnifiedFibonacciSolver.solve 100 FibonacciFilter.ODD).sum_value = 187 ∧
      (UnifiedFibonacciSolver.solve 100 FibonacciFilter.ODD).count = 7 ∧
      (UnifiedFibonacciSolver.solve 10 FibonacciFilter.ALL).sequence = [1, 2, 3, 5, 8] ∧
      (UnifiedFibonacciSolver.solve 10 FibonacciFilter.ALL).sum_value = 19 := by
  refine ⟨?_, ?_, ?_, ?_, ?_, ?_, ?_, ?_, ?_⟩ <;>
    simp [UnifiedFibonacciSolver.solve, fibonacci_all, fibonacci_even_optimized,
      fibonacci_odd_difference, fibLoop, evenLoop]

/-- C8: analyze(1, EVEN) returns the empty sequence with sum 0, count 0,
glb 0 and lub 2 (the seed itself, found by the even recurrence regardless of
the bound), raising nothing. -/
theorem solve_one_even_boundary :
    (UnifiedFibonacciSolver.solve 1 FibonacciFilter.EVEN).sequence = [] ∧
      (UnifiedFibonacciSolver.solve 1 FibonacciFilter.EVEN).sum_value = 0 ∧
      (UnifiedFibonacciSolver.solve 1 FibonacciFilter.EVEN).count = 0 ∧
      (UnifiedFibonacciSolver.solve 1 FibonacciFilter.EVEN).glb = 0 ∧
      (UnifiedFibonacciSolver.solve 1 FibonacciFilter.EVEN).lub = 2 := by
  simp [UnifiedFibonacciSolver.solve, fibonacci_even_optimized, evenLoop]

theorem getLast_map_range' (s k : Nat) :
    (((List.range' s (k + 1)).map g).getLast?).getD 0 = g (s + k) := by
  rw [List.getLast?_map, List.getLast?_range']
  simp

theorem mod3_of_g_even (j : Nat) (h : g j % 2 = 0) : j % 3 = 1 := by
  by_contra hc
  have := g_odd_of_mod j hc
  omega

theorem mod3_of_g_odd (j : Nat) (h : g j % 2 = 1) : j % 3 ≠ 1 := by
  intro hc
  have := g_even_of_mod j hc
  omega

/-- The fields of `fibonacci_all` in terms of the canonical sequence: the
sequence is the first `m` canonical terms, the lub is `g m` (first term past
the bound), the glb is `g (m-1)` when the sequence is nonempty. -/
theorem fibonacci_all_char (bound : Nat) :
    ∃ m, bound < g m ∧ (∀ j, j < m → g j ≤ bound) ∧
      (fibonacci_all bound).sequence = (List.range' 0 m).map g ∧
      (fibonacci_all bound).lub = g m ∧
      (fibonacci_all bound).glb = (if m = 0 then 0 else g (m - 1)) := by
  obtain ⟨m, _, hm1, hm2, hm3⟩ := fibLoop_spec bound 0
  rw [show g 0 = 1 from rfl, show g (0 + 1) = 2 from rfl, Nat.sub_zero] at hm3
  have hseq : (fibonacci_all bound).sequence = (List.range' 0 m).map g := by
    show (fibLoop bound 1 2).1 = (List.range' 0 m).map g
    rw [hm3]
  have hlub : (fibonacci_all bound).lub = g m := by
    show (fibLoop bound 1 2).2.1 = g m
    rw [hm3]
  refine ⟨m, hm1, fun j hj => hm2 j (Nat.zero_le j) hj, hseq, hlub, ?_⟩
  show ((fibLoop bound 1 2).1).getLast?.getD 0 = _
  rw [hm3]
  cases m with
  | zero => rfl
  | succ k =>
    rw [getLast_map_range' 0 k]
    simp

/-- The lub computed by `fibonacci_odd_difference`: continue the standard
recurrence from `(g m, g (m+1))` (where `g m` is the ALL lub) past even
values — one step when `g m` is even, zero steps otherwise. -/
theorem fibonacci_odd_lub_char (bound : Nat) (h : 1 ≤ bound) :
    ∃ m, 1 ≤ m ∧ bound < g m ∧ (∀ j, j < m → g j ≤ bound) ∧
      (fibonacci_odd_difference bound).lub =
        (if m % 3 = 1 then g (m + 1) else g m) := by
  obtain ⟨m, hm1, hm2, _, hlub, hglb⟩ := fibonacci_all_char bound
  have hm_pos : 1 ≤ m := by
    rcases Nat.eq_zero_or_pos m with rfl | hp
    · have hg0 : g 0 = 1 := rfl
      omega
    · exact hp
  have hb : (fibonacci_all bound).lub + (fibonacci_all bound).glb = g (m + 1) := by
    rw [hlub, hglb, if_neg (by omega)]
    have e := g_add_two (m - 1)
    rw [show m - 1 + 2 = m + 1 from by omega, show m - 1 + 1 = m from by omega] at e
    omega
  have hshow : (fibonacci_odd_difference bound).lub =
      (evenSkipLoop (fibonacci_all bound).lub
        ((fibonacci_all bound).lub + (fibonacci_all bound).glb)).1 := rfl
  rw [hshow, hb, hlub]
  refine ⟨m, hm_pos, hm1, hm2, ?_⟩
  by_cases hm3 : m % 3 = 1
  · have ha_even : g m % 2 = 0 := g_even_of_mod m hm3
    have hb_odd : g (m + 1) % 2 = 1 := g_odd_of_mod (m + 1) (by omega)
    rw [if_pos hm3, evenSkipLoop, if_pos ha_even, if_pos hb_odd,
      evenSkipLoop, if_neg (by omega)]
  · have ha_odd : g m % 2 = 1 := g_odd_of_mod m hm3
    rw [if_neg hm3, evenSkipLoop, if_neg (by omega)]

/-- C5: for every bound ≥ 1 and every filter, the lub field of the analysis
is strictly greater than the bound, lies in the filtered class (canonical
Fibonacci sequence seeded (1, 2) restricted to the filter's parity), and is
the smallest member of that class exceeding the bound. -/
theorem lub_least_in_class (bound : Nat) (h : 1 ≤ bound) (f : FibonacciFilter) :
    bound < (UnifiedFibonacciSolver.solve bound f).lub ∧
      inClass f (UnifiedFibonacciSolver.solve bound f).lub ∧
      ∀ y, inClass f y → bound < y → (UnifiedFibonacciSolver.solve bound f).lub ≤ y := by
  cases f with
  | ALL =>
    have hs : UnifiedFibonacciSolver.solve bound FibonacciFilter.ALL =
        fibonacci_all bound := rfl
    rw [hs]
    obtain ⟨m, hm1, hm2, _, hlub, _⟩ := fibonacci_all_char bound
    rw [hlub]
    refine ⟨hm1, ⟨⟨m, rfl⟩, trivial⟩, ?_⟩
    rintro y ⟨⟨j, rfl⟩, -⟩ hy
    have hjm : ¬ j < m := fun hj => by have := hm2 j hj; omega
    exact g_mono (by omega)
  | EVEN =>
    have hs : UnifiedFibonacciSolver.solve bound FibonacciFilter.EVEN =
        fibonacci_even_optimized bound := rfl
    rw [hs]
    obtain ⟨K, -, hK2, hK3, hKlub⟩ := evenLoop_spec bound 0
    rw [show g (3 * 0 + 1) = 2 from rfl, show g (3 * 0 + 4) = 8 from rfl] at hKlub
    have hlub : (fibonacci_even_optimized bound).lub = g (3 * K + 1) := hKlub
    rw [hlub]
    refine ⟨hK2, ⟨⟨3 * K + 1, rfl⟩, g_even_of_mod _ (by omega)⟩, ?_⟩
    rintro y ⟨⟨j, rfl⟩, hpar⟩ hy
    have hj3 : j % 3 = 1 := mod3_of_g_even j hpar
    have hji : j = 3 * (j / 3) + 1 := by omega
    have hiK : ¬ j / 3 < K := fun hi => by
      have := hK3 (j / 3) (Nat.zero_le _) hi
      rw [← hji] at this
      omega
    exact g_mono (by omega)
  | ODD =>
    have hs : UnifiedFibonacciSolver.solve bound FibonacciFilter.ODD =
        fibonacci_odd_difference bound := rfl
    rw [hs]
    obtain ⟨m, hm_pos, hm1, hm2, hlub⟩ := fibonacci_odd_lub_char bound h
    rw [hlub]
    by_cases hm3 : m % 3 = 1
    · rw [if_pos hm3]
      have hmono : g m < g (m + 1) := g_lt_succ m
      refine ⟨by omega, ⟨⟨m + 1, rfl⟩, g_odd_of_mod _ (by omega)⟩, ?_⟩
      rintro y ⟨⟨j, rfl⟩, hpar⟩ hy
      have hj3 : j % 3 ≠ 1 := mod3_of_g_odd j hpar
      have hjm : ¬ j < m := fun hj => by have := hm2 j hj; omega
      have hne : j ≠ m := fun hjeq => hj3 (hjeq ▸ hm3)
      exact g_mono (by omega)
    · rw [if_neg hm3]
      refine ⟨hm1, ⟨⟨m, rfl⟩, g_odd_of_mod _ hm3⟩, ?_⟩
      rintro y ⟨⟨j, rfl⟩, hpar⟩ hy
      have hjm : ¬ j < m := fun hj => by have := hm2 j hj; omega
      exact g_mono (by omega)

/-- Witness for `lub_least_in_class` at bound 10, filter EVEN. -/
theorem lub_least_in_class_witness :
    1 ≤ 10 ∧
      (10 < (UnifiedFibonacciSolver.solve 10 FibonacciFilter.EVEN).lub ∧
        inClass FibonacciFilter.EVEN
          (UnifiedFibonacciSolver.solve 10 FibonacciFilter.EVEN).lub ∧
        ∀ y, inClass FibonacciFilter.EVEN y → 10 < y →
          (UnifiedFibonacciSolver.solve 10 FibonacciFilter.EVEN).lub ≤ y) :=
  ⟨by decide, lub_least_in_class 10 (by decide) FibonacciFilter.EVEN⟩

/-! ### Correctness of the multiples-of-3-or-5 script -/

/-- The positive multiples of `m` below `n` are the image of
`i ↦ m * (i + 1)` on `range ((n - 1) / m)`. -/
theorem multiples_filter_eq (n m : Nat) (hm : 1 ≤ m) :
    (Finset.range n).filter (fun x => 0 < x ∧ m ∣ x) =
      (Finset.range ((n - 1) / m)).image (fun i => m * (i + 1)) := by
  ext x
  simp only [Finset.mem_filter, Finset.mem_range, Finset.mem_image]
  constructor
  · rintro ⟨hxn, hx0, q, rfl⟩
    have hq1 : 1 ≤ q := by
      rcases Nat.eq_zero_or_pos q with rfl | h1
      · omega
      · exact h1
    refine ⟨q - 1, ?_, by rw [Nat.sub_add_cancel hq1]⟩
    have hc : m * q = q * m := Nat.mul_comm m q
    have hq : q ≤ (n - 1) / m := (Nat.le_div_iff_mul_le hm).mpr (by omega)
    omega
  · rintro ⟨i, hi, rfl⟩
    have hk : (n - 1) / m * m ≤ n - 1 := Nat.div_mul_le_self (n - 1) m
    have hstep : (i + 1) * m ≤ (n - 1) / m * m :=
      Nat.mul_le_mul_right m hi
    have hcomm : m * (i + 1) = (i + 1) * m := Nat.mul_comm m (i + 1)
    have hself : (n - 1) / m ≤ n - 1 := Nat.div_le_self (n - 1) m
    have hpos : 0 < m * (i + 1) := Nat.mul_pos (by omega) (by omega)
    exact ⟨by omega, hpos, Dvd.intro (i + 1) rfl⟩

/-- `sum_multiples_below` computes exactly the sum of the positive multiples
of `m` strictly below `n` (arithmetic-series formula). -/
theorem sum_multiples_below_spec (n m : Nat) (hm : 1 ≤ m) :
    sum_multiples_below n m =
      ∑ x ∈ (Finset.range n).filter (fun x => 0 < x ∧ m ∣ x), x := by
  rw [multiples_filter_eq n m hm]
  rw [Finset.sum_image (fun a _ b _ hab => by
    have := Nat.eq_of_mul_eq_mul_left (show 0 < m by omega) hab
    omega)]
  have hshift : (∑ i ∈ Finset.range ((n - 1) / m), m * (i + 1)) =
      m * ∑ j ∈ Finset.range ((n - 1) / m + 1), j := by
    rw [Finset.mul_sum, Finset.sum_range_succ']
    simp
  rw [hshift, Finset.sum_range_id]
  have h2 : 2 ∣ (n - 1) / m * ((n - 1) / m + 1) :=
    (Nat.even_mul_succ_self ((n - 1) / m)).two_dvd
  rw [sum_multiples_below]
  split_ifs with hnm
  · have hk0 : (n - 1) / m = 0 := Nat.div_eq_of_lt (by omega)
    rw [hk0]
    simp
  · show m * ((n - 1) / m) * ((n - 1) / m + 1) / 2 =
      m * (((n - 1) / m + 1) * (((n - 1) / m + 1) - 1) / 2)
    rw [Nat.add_sub_cancel, Nat.mul_assoc, Nat.mul_div_assoc m h2,
      Nat.mul_comm ((n - 1) / m) ((n - 1) / m + 1)]

/-- C10: for every n ≥ 1, `calculate_sum_3_or_5 n` is the sum of the
positive integers below `n` divisible by 3 or by 5; `sum_multiples_below`
sums the positive multiples of `m` below `n` for every m ≥ 1, and returns 0
whenever n ≤ m. -/
theorem calculate_sum_3_or_5_correct (n m : Nat) (_hn : 1 ≤ n) (hm : 1 ≤ m) :
    calculate_sum_3_or_5 n =
        ∑ x ∈ (Finset.range n).filter (fun x => 0 < x ∧ (3 ∣ x ∨ 5 ∣ x)), x ∧
      sum_multiples_below n m =
        ∑ x ∈ (Finset.range n).filter (fun x => 0 < x ∧ m ∣ x), x ∧
      (n ≤ m → sum_multiples_below n m = 0) := by
  refine ⟨?_, sum_multiples_below_spec n m hm,
    fun hle => by rw [sum_multiples_below, if_pos hle]⟩
  have h3 := sum_multiples_below_spec n 3 (by omega)
  have h5 := sum_multiples_below_spec n 5 (by omega)
  have h15 := sum_multiples_below_spec n 15 (by omega)
  have hA : calculate_sum_3_or_5 n =
      sum_multiples_below n 3 + sum_multiples_below n 5 -
        sum_multiples_below n 15 := rfl
  have hunion : (Finset.range n).filter (fun x => 0 < x ∧ (3 ∣ x ∨ 5 ∣ x)) =
      ((Finset.range n).filter (fun x => 0 < x ∧ 3 ∣ x)) ∪
        ((Finset.range n).filter (fun x => 0 < x ∧ 5 ∣ x)) := by
    ext x
    simp only [Finset.mem_filter, Finset.mem_union]
    tauto
  have hinter : ((Finset.range n).filter (fun x => 0 < x ∧ 3 ∣ x)) ∩
      ((Finset.range n).filter (fun x => 0 < x ∧ 5 ∣ x)) =
      (Finset.range n).filter (fun x => 0 < x ∧ 15 ∣ x) := by
    ext x
    simp only [Finset.mem_inter, Finset.mem_filter]
    constructor
    · rintro ⟨⟨hx, hpos, h3d⟩, -, -, h5d⟩
      exact ⟨hx, hpos,
        Nat.Coprime.mul_dvd_of_dvd_of_dvd (by decide) h3d h5d⟩
    · rintro ⟨hx, hpos, h15d⟩
      exact ⟨⟨hx, hpos, dvd_trans ⟨5, rfl⟩ h15d⟩, hx, hpos,
        dvd_trans ⟨3, rfl⟩ h15d⟩
  have hsum : (∑ x ∈ (((Finset.range n).filter (fun x => 0 < x ∧ 3 ∣ x)) ∪
        ((Finset.range n).filter (fun x => 0 < x ∧ 5 ∣ x))), x) +
      (∑ x ∈ (((Finset.range n).filter (fun x => 0 < x ∧ 3 ∣ x)) ∩
        ((Finset.range n).filter (fun x => 0 < x ∧ 5 ∣ x))), x) =
      (∑ x ∈ (Finset.range n).filter (fun x => 0 < x ∧ 3 ∣ x), x) +
        (∑ x ∈ (Finset.range n).filter (fun x => 0 < x ∧ 5 ∣ x), x) :=
    Finset.sum_union_inter
  rw [hinter] at hsum
  rw [hA, h3, h5, h15, hunion]
  omega

/-- Witness for `calculate_sum_3_or_5_correct` at n = 10, m = 3. -/
theorem calculate_sum_3_or_5_correct_witness :
    1 ≤ 10 ∧ 1 ≤ 3 ∧
      (calculate_sum_3_or_5 10 =
          ∑ x ∈ (Finset.range 10).filter (fun x => 0 < x ∧ (3 ∣ x ∨ 5 ∣ x)), x ∧
        sum_multiples_below 10 3 =
          ∑ x ∈ (Finset.range 10).filter (fun x => 0 < x ∧ 3 ∣ x), x ∧
        (10 ≤ 3 → sum_multiples_below 10 3 = 0)) :=
  ⟨by decide, by decide, calculate_sum_3_or_5_correct 10 3 (by decide) (by decide)⟩
